import Mathlib

/-!
# Formal model of the `epsteindata` ingestion engine

A shallow embedding of the scraper's core: the document catalog
(`epstein_scraper/db.py`), the HTTP download engine
(`epstein_scraper/downloader.py`), the default adapter run loop
(`epstein_scraper/sources/base.py`), the text extractor
(`epstein_scraper/extractor.py`), and the epsteingraph adapter's catalog
registration (`epstein_scraper/sources/epsteingraph.py`).

SQLite rows are records with `Option` for nullable columns; timestamps are
abstract `Nat` clock values.  Network responses, OCR output, and per-attempt
download outcomes are oracle parameters, since the corresponding Python calls
perform I/O.  Wall-clock time for rate limiting is modelled as exact `ℚ`.
-/

namespace EpsteinData

/-- One row of the `documents` table (db.py `_init_db`, lines 26-42).
Nullable columns are `Option`; `created_at` / `updated_at` hold abstract
clock values supplied by the caller (`CURRENT_TIMESTAMP`). -/
structure DocRow where
  id : Nat
  url : String
  source : String
  source_id : String
  filename : String
  title : String
  metadata : String
  local_path : Option String
  sha256 : Option String
  file_size : Option Nat
  download_status : String
  error : Option String
  created_at : Nat
  updated_at : Nat
  deriving Repr, DecidableEq

/-- The catalog state: the `documents` rows in insertion order, the next
AUTOINCREMENT rowid, and the sqlite connection-level `last_insert_rowid`
value — the quantity `cursor.lastrowid` reports after executing an INSERT
statement, which an `INSERT OR IGNORE` that ignores leaves unchanged
(observed CPython 3.11 / sqlite behaviour). -/
structure Db where
  rows : List DocRow
  nextId : Nat
  lastInsertRowid : Nat
  deriving Repr, DecidableEq

/-- A fresh database: AUTOINCREMENT starts at rowid 1, and
`sqlite3_last_insert_rowid` is 0 before any insert on the connection. -/
def Db.empty : Db := ⟨[], 1, 0⟩

/-- `Database.url_exists` (db.py lines 70-72). -/
def url_exists (db : Db) (url : String) : Bool :=
  (db.rows.find? (fun r => r.url == url)).isSome

/-- `Database.sha256_exists` (db.py lines 74-80): the `local_path` column of
the first row with this hash and `download_status = 'downloaded'`.  The
Python collapses "no row" and "row with NULL local_path" to `None`; so does
this model. -/
def sha256_exists (db : Db) (sha : String) : Option String :=
  match db.rows.find? (fun r =>
      r.sha256 == some sha && r.download_status == "downloaded") with
  | some r => r.local_path
  | none => none

/-- The row `INSERT OR IGNORE INTO documents …` creates: `pending` status,
NULL download-outcome columns, fresh timestamps (db.py lines 86-88). -/
def pendingRow (id : Nat) (url source source_id filename title metadata : String)
    (now : Nat) : DocRow :=
  { id := id, url := url, source := source,
    source_id := source_id, filename := filename, title := title,
    metadata := metadata, local_path := none, sha256 := none,
    file_size := none, download_status := "pending", error := none,
    created_at := now, updated_at := now }

/-- `Database.insert_document` (db.py lines 82-95).  `INSERT OR IGNORE`
inserts a `pending` row exactly when the url is absent (UNIQUE(url)).
`metadata` is the already-serialized JSON text.  `cur.lastrowid` is read
from the connection's `last_insert_rowid`, and the code returns it whenever
it is truthy, falling back to a SELECT of the existing row's id. -/
def insert_document (db : Db) (url source source_id filename title metadata : String)
    (now : Nat) : Nat × Db :=
  if url_exists db url then
    -- INSERT OR IGNORE ignored the row: `cur.lastrowid` is the connection's
    -- unchanged `last_insert_rowid`; the code returns it whenever truthy.
    if db.lastInsertRowid ≠ 0 then (db.lastInsertRowid, db)
    else
      match db.rows.find? (fun r => r.url == url) with
      | some r => (r.id, db)
      | none => (0, db)
  else
    -- the row was inserted: `cur.lastrowid` is the fresh rowid `db.nextId`.
    let db' : Db :=
      { rows := db.rows ++
          [pendingRow db.nextId url source source_id filename title metadata now],
        nextId := db.nextId + 1,
        lastInsertRowid := db.nextId }
    if db.nextId ≠ 0 then (db.nextId, db')
    else
      match db'.rows.find? (fun r => r.url == url) with
      | some r => (r.id, db')
      | none => (0, db')

/-- `Database.update_download` (db.py lines 97-105): one UPDATE overwriting
the five download-outcome columns with the passed arguments and refreshing
`updated_at`, on every row whose id matches. -/
def update_download (db : Db) (doc_id : Nat) (status : String)
    (local_path : Option String) (sha256 : Option String)
    (file_size : Option Nat) (error : Option String) (now : Nat) : Db :=
  { db with
    rows := db.rows.map (fun r =>
      if r.id = doc_id then
        { r with
          download_status := status, local_path := local_path,
          sha256 := sha256, file_size := file_size, error := error,
          updated_at := now }
      else r) }

/-- A one-row database used to instantiate the frame theorem: its single
row is a fully-populated `downloaded` document. -/
def sampleRow : DocRow :=
  { id := 1, url := "u", source := "direct_urls", source_id := "sid",
    filename := "f.pdf", title := "t", metadata := "m",
    local_path := some "data/direct_urls/f.pdf", sha256 := some "abc",
    file_size := some 7, download_status := "downloaded", error := none,
    created_at := 3, updated_at := 3 }

/-- The catalog holding just `sampleRow`. -/
def sampleDb : Db := ⟨[sampleRow], 2, 1⟩

/-- `sampleRow` after `update_download(1, "failed", error="net down")` at
clock 5: the three omitted optional arguments have erased the previously
stored path, hash and size. -/
def sampleRowFailed : DocRow :=
  { id := 1, url := "u", source := "direct_urls", source_id := "sid",
    filename := "f.pdf", title := "t", metadata := "m",
    local_path := none, sha256 := none,
    file_size := none, download_status := "failed", error := some "net down",
    created_at := 3, updated_at := 5 }

/-- C10: `update_download` overwrites exactly the five columns
`download_status`, `local_path`, `sha256`, `file_size`, `error` with its
arguments (an omitted optional argument stores NULL, erasing any previous
value) and refreshes `updated_at`, while every other column of the matched
row, every other row, and the rest of the database state are unchanged. -/
theorem update_download_frame (db : Db) (doc_id : Nat) (status : String)
    (lp : Option String) (sh : Option String) (fs : Option Nat)
    (err : Option String) (now : Nat) :
    (update_download db doc_id status lp sh fs err now).nextId = db.nextId ∧
    (update_download db doc_id status lp sh fs err now).lastInsertRowid
      = db.lastInsertRowid ∧
    (update_download db doc_id status lp sh fs err now).rows.length
      = db.rows.length ∧
    ∀ (i : Nat) (r r' : DocRow), db.rows[i]? = some r →
      (update_download db doc_id status lp sh fs err now).rows[i]? = some r' →
      ((r.id ≠ doc_id → r' = r) ∧
       (r.id = doc_id →
         r'.download_status = status ∧ r'.local_path = lp ∧ r'.sha256 = sh ∧
         r'.file_size = fs ∧ r'.error = err ∧ r'.updated_at = now ∧
         r'.id = r.id ∧ r'.url = r.url ∧ r'.source = r.source ∧
         r'.source_id = r.source_id ∧ r'.filename = r.filename ∧
         r'.title = r.title ∧ r'.metadata = r.metadata ∧
         r'.created_at = r.created_at)) := by
  refine ⟨rfl, rfl, by simp [update_download], ?_⟩
  intro i r r' hr hr'
  have hmap : (update_download db doc_id status lp sh fs err now).rows[i]?
      = (db.rows[i]?).map (fun r =>
        if r.id = doc_id then
          { r with
            download_status := status, local_path := lp, sha256 := sh,
            file_size := fs, error := err, updated_at := now }
        else r) := by
    simp [update_download]
  rw [hmap, hr] at hr'
  simp only [Option.map_some', Option.some.injEq] at hr'
  constructor
  · intro hne
    rw [← hr']
    simp [hne]
  · intro heq
    rw [← hr']
    simp [heq]

/-- Witness for `update_download_frame` at the one-row catalog `sampleDb`:
marking the `downloaded` row `failed` with every optional argument omitted
erases the stored path, hash and size while keeping url and creation time. -/
theorem update_download_frame_witness :
    sampleRowFailed.download_status = "failed" ∧
    sampleRowFailed.local_path = none ∧
    sampleRowFailed.sha256 = none ∧
    sampleRowFailed.file_size = none ∧
    sampleRowFailed.error = some "net down" ∧
    sampleRowFailed.updated_at = 5 ∧
    sampleRowFailed.url = sampleRow.url ∧
    sampleRowFailed.created_at = sampleRow.created_at := by
  have h := (update_download_frame sampleDb 1 "failed" none none none
      (some "net down") 5).2.2.2 0 sampleRow sampleRowFailed rfl rfl
  obtain ⟨hs, hlp, hsh, hfs, herr, hupd, _, hurl, _, _, _, _, _, hca⟩ := h.2 rfl
  exact ⟨hs, hlp, hsh, hfs, herr, hupd, hurl, hca⟩

/-- The catalog after `insert_document(url="a", ...)` on a fresh database. -/
def dbA : Nat × Db := insert_document Db.empty "a" "s" "" "" "" "" 0

/-- ... then `insert_document(url="b", ...)` on the same connection. -/
def dbAB : Nat × Db := insert_document dbA.2 "b" "s" "" "" "" "" 0

/-- ... then `insert_document(url="a", ...)` again: the INSERT is ignored, but
`cur.lastrowid` still holds the connection's last successful insert rowid. -/
def dbABA : Nat × Db := insert_document dbAB.2 "a" "s" "" "" "" "" 0

/-- C4: `insert_document` with an already-present url inserts no new row and
leaves the table unchanged, but it does NOT return the existing row's id:
after inserting urls "a" (id 1) and "b" (id 2) on the same connection,
re-inserting "a" returns 2 — the stale `cur.lastrowid` of the ignored
INSERT — instead of 1.  The code's own comment ("Already exists, get its
id") and the spec agree on the intent, so this is a code bug. -/
theorem insert_document_stale_lastrowid :
    dbA.1 = 1 ∧ dbAB.1 = 2 ∧
    dbABA.1 = 2 ∧
    dbABA.2 = dbAB.2 ∧
    (dbAB.2.rows.map (fun r => (r.url, r.id))) = [("a", 1), ("b", 2)] ∧
    (dbAB.2.rows.find? (fun r => r.url == "a")).map (fun r => r.id) = some 1 :=
  ⟨rfl, rfl, rfl, rfl, rfl, rfl⟩

/-! ## Rate limiting (`Downloader.rate_limit`) -/

/-- The Fetcher's per-source last-request timestamps
(`Downloader._last_request_time`), newest binding first. -/
abbrev RateState := List (String × ℚ)

/-- `self._last_request_time.get(source, 0)` (downloader.py line 40). -/
def lastRequestTime (m : RateState) (source : String) : ℚ :=
  match m.find? (fun p => p.1 == source) with
  | some p => p.2
  | none => 0

/-- `Downloader.rate_limit` (downloader.py lines 39-44) in an idealized clock
model: `time.time()` reads `clock : ℚ` and `time.sleep(d)` advances the clock
by exactly `d`.  Returns the post-sleep clock — which is also the timestamp
recorded for the source — and the updated timestamp map. -/
def rate_limit (clock : ℚ) (m : RateState) (source : String) (rate : ℚ) :
    ℚ × RateState :=
  let last := lastRequestTime m source
  let elapsed := clock - last
  let clock' := if elapsed < rate then clock + (rate - elapsed) else clock
  (clock', (source, clock') :: m)

/-- C9: `rate_limit` sleeps until `rate` seconds have elapsed since the
recorded time of the previous request to this source and records the current
time, so the recorded times of two consecutive requests to the same source —
the moments the outbound requests are issued — are at least `rate` apart. -/
theorem rate_limit_gap (clock clock2 rate : ℚ) (m : RateState) (source : String) :
    lastRequestTime (rate_limit clock m source rate).2 source
      = (rate_limit clock m source rate).1 ∧
    clock ≤ (rate_limit clock m source rate).1 ∧
    lastRequestTime m source + rate ≤ (rate_limit clock m source rate).1 ∧
    (rate_limit clock m source rate).1 + rate ≤
      (rate_limit clock2 (rate_limit clock m source rate).2 source rate).1 := by
  have hrec : ∀ (c : ℚ) (mm : RateState),
      lastRequestTime (rate_limit c mm source rate).2 source
        = (rate_limit c mm source rate).1 := by
    intro c mm
    simp [rate_limit, lastRequestTime]
  have hge : ∀ (c : ℚ) (mm : RateState),
      lastRequestTime mm source + rate ≤ (rate_limit c mm source rate).1 ∧
      c ≤ (rate_limit c mm source rate).1 := by
    intro c mm
    simp only [rate_limit]
    split
    · constructor <;> linarith
    · next h => constructor <;> [linarith [not_lt.mp h]; linarith]
  have hstep := (hge clock2 (rate_limit clock m source rate).2).1
  rw [hrec clock m] at hstep
  exact ⟨hrec clock m, (hge clock m).2, (hge clock m).1, hstep⟩

/-! ## Retry policy (`Downloader.download_file`) -/

/-- The exceptions the download path distinguishes, with their `str(e)`
message: `httpx.HTTPStatusError`, `httpx.TransportError` and `OSError` are
the retryable classes of `download_file`'s except clause; `ValueError` is
what `_stream_download` raises on content-type and size-cap violations. -/
inductive PyExc where
  | httpStatusError (msg : String)
  | transportError (msg : String)
  | osError (msg : String)
  | valueError (msg : String)
  deriving Repr, DecidableEq

/-- `str(e)` for the modelled exceptions. -/
def PyExc.msg : PyExc → String
  | .httpStatusError m => m
  | .transportError m => m
  | .osError m => m
  | .valueError m => m

/-- Membership in `except (httpx.HTTPStatusError, httpx.TransportError,
OSError)` (downloader.py line 62). -/
def retryableExc : PyExc → Bool
  | .httpStatusError _ => true
  | .transportError _ => true
  | .osError _ => true
  | .valueError _ => false

/-- What one iteration of `download_file`'s loop body observes:
`_stream_download` returns `(local_path, sha256, size)` or raises. -/
inductive Attempt where
  | ok (local_path sha256 : String) (size : Nat)
  | exc (e : PyExc)
  deriving Repr, DecidableEq

/-- The observable outcome of `download_file`: a return value, a raised
exception, or the `raise last_error` with `last_error = None` (a TypeError
in Python) reached when `max_retries` is 0. -/
inductive DlOutcome where
  | ok (local_path sha256 : String) (size : Nat)
  | raised (e : PyExc)
  | raisedNone
  deriving Repr, DecidableEq

/-- The retry loop of `Downloader.download_file` (downloader.py lines
57-68), driven by an oracle giving each attempt's outcome.  Also returns
the list of `time.sleep` waits performed: `backoff ** attempt` after every
failed retryable attempt — including the final one, just before
`raise last_error`. -/
def downloadGo (attempts : Nat → Attempt) (backoff : Nat) :
    Nat → Nat → Option PyExc → List Nat → DlOutcome × List Nat
  | _, 0, lastError, waits =>
      match lastError with
      | some e => (.raised e, waits)
      | none => (.raisedNone, waits)
  | attempt, fuel + 1, _lastError, waits =>
      match attempts attempt with
      | .ok p s z => (.ok p s z, waits)
      | .exc e =>
          if retryableExc e then
            downloadGo attempts backoff (attempt + 1) fuel (some e)
              (waits ++ [backoff ^ attempt])
          else (.raised e, waits)

/-- `Downloader.download_file` (downloader.py lines 46-68): up to
`max_retries` attempts starting at attempt 0 with no recorded error. -/
def download_file (attempts : Nat → Attempt) (backoff maxRetries : Nat) :
    DlOutcome × List Nat :=
  downloadGo attempts backoff 0 maxRetries none []

/-- The loop consults only attempts `attempt, …, attempt + fuel - 1`. -/
lemma downloadGo_congr (b : Nat) :
    ∀ (fuel attempt : Nat) (le : Option PyExc) (waits : List Nat)
      (f g : Nat → Attempt),
      (∀ i, attempt ≤ i → i < attempt + fuel → f i = g i) →
      downloadGo f b attempt fuel le waits
        = downloadGo g b attempt fuel le waits := by
  intro fuel
  induction fuel with
  | zero => intro attempt le waits f g _; rfl
  | succ n ih =>
      intro attempt le waits f g h
      have h0 : f attempt = g attempt := h attempt (Nat.le_refl _) (by omega)
      simp only [downloadGo, h0]
      cases hg : g attempt with
      | ok p s z => rfl
      | exc e =>
          by_cases hre : retryableExc e
          · simp only [hre, if_true]
            exact ih (attempt + 1) (some e) (waits ++ [b ^ attempt]) f g
              (fun i h1 h2 => h i (by omega) (by omega))
          · simp [hre]

/-- If the first `k` attempts from `attempt` raise retryable errors and
attempt `attempt + k` succeeds, the loop returns that success after waiting
`b ^ i` for each failed attempt `i`. -/
lemma downloadGo_first_ok (b : Nat) (f : Nat → Attempt) :
    ∀ (k fuel attempt : Nat) (le : Option PyExc) (waits : List Nat)
      (p s : String) (z : Nat),
      k < fuel →
      (∀ i, i < k → ∃ e, f (attempt + i) = .exc e ∧ retryableExc e = true) →
      f (attempt + k) = .ok p s z →
      downloadGo f b attempt fuel le waits
        = (.ok p s z, waits ++ (List.range' attempt k).map (b ^ ·)) := by
  intro k
  induction k with
  | zero =>
      intro fuel attempt le waits p s z hk hpre hok
      obtain ⟨n, rfl⟩ : ∃ n, fuel = n + 1 := ⟨fuel - 1, by omega⟩
      rw [Nat.add_zero] at hok
      simp [downloadGo, hok]
  | succ m ih =>
      intro fuel attempt le waits p s z hk hpre hok
      obtain ⟨n, rfl⟩ : ∃ n, fuel = n + 1 := ⟨fuel - 1, by omega⟩
      obtain ⟨e0, he0, hre0⟩ := hpre 0 (by omega)
      rw [Nat.add_zero] at he0
      simp only [downloadGo, he0, hre0, if_true]
      rw [ih n (attempt + 1) (some e0) (waits ++ [b ^ attempt]) p s z (by omega)
        (fun i hi => by
          have hh := hpre (i + 1) (by omega)
          rwa [show attempt + (i + 1) = attempt + 1 + i by omega] at hh)
        (by rwa [show attempt + 1 + m = attempt + (m + 1) by omega])]
      rw [List.range'_succ attempt m 1]
      simp

/-- If the first `k` attempts raise retryable errors and attempt
`attempt + k` raises a non-retryable error, the loop re-raises it at once,
with no wait for the fatal attempt. -/
lemma downloadGo_fatal (b : Nat) (f : Nat → Attempt) :
    ∀ (k fuel attempt : Nat) (le : Option PyExc) (waits : List Nat) (e : PyExc),
      k < fuel →
      (∀ i, i < k → ∃ e', f (attempt + i) = .exc e' ∧ retryableExc e' = true) →
      f (attempt + k) = .exc e → retryableExc e = false →
      downloadGo f b attempt fuel le waits
        = (.raised e, waits ++ (List.range' attempt k).map (b ^ ·)) := by
  intro k
  induction k with
  | zero =>
      intro fuel attempt le waits e hk hpre hexc hre
      obtain ⟨n, rfl⟩ : ∃ n, fuel = n + 1 := ⟨fuel - 1, by omega⟩
      rw [Nat.add_zero] at hexc
      simp [downloadGo, hexc, hre]
  | succ m ih =>
      intro fuel attempt le waits e hk hpre hexc hre
      obtain ⟨n, rfl⟩ : ∃ n, fuel = n + 1 := ⟨fuel - 1, by omega⟩
      obtain ⟨e0, he0, hre0⟩ := hpre 0 (by omega)
      rw [Nat.add_zero] at he0
      simp only [downloadGo, he0, hre0, if_true]
      rw [ih n (attempt + 1) (some e0) (waits ++ [b ^ attempt]) e (by omega)
        (fun i hi => by
          have hh := hpre (i + 1) (by omega)
          rwa [show attempt + (i + 1) = attempt + 1 + i by omega] at hh)
        (by rwa [show attempt + 1 + m = attempt + (m + 1) by omega]) hre]
      rw [List.range'_succ attempt m 1]
      simp

/-- If every attempt in the window raises a retryable error, the loop
exhausts and re-raises the error of the last attempt, having waited after
each attempt including the final one. -/
lemma downloadGo_exhaust (b : Nat) (f : Nat → Attempt) :
    ∀ (fuel attempt : Nat) (le : Option PyExc) (waits : List Nat) (e : PyExc),
      0 < fuel →
      (∀ i, i < fuel → ∃ e', f (attempt + i) = .exc e' ∧ retryableExc e' = true) →
      f (attempt + fuel - 1) = .exc e →
      downloadGo f b attempt fuel le waits
        = (.raised e, waits ++ (List.range' attempt fuel).map (b ^ ·)) := by
  intro fuel
  induction fuel with
  | zero => intro attempt le waits e h0; omega
  | succ n ih =>
      intro attempt le waits e _ hpre hlast
      obtain ⟨e0, he0, hre0⟩ := hpre 0 (by omega)
      rw [Nat.add_zero] at he0
      simp only [downloadGo, he0, hre0, if_true]
      rcases Nat.eq_zero_or_pos n with hn | hn
      · subst hn
        have : e0 = e := by
          rw [show attempt + 1 - 1 = attempt by omega] at hlast
          rw [he0] at hlast
          exact (Attempt.exc.injEq _ _).mp hlast.symm |>.symm ▸ rfl
        subst this
        simp [downloadGo, List.range'_succ attempt 0 1]
      · rw [ih (attempt + 1) (some e0) (waits ++ [b ^ attempt]) e hn
          (fun i hi => by
            have hh := hpre (i + 1) (by omega)
            rwa [show attempt + (i + 1) = attempt + 1 + i by omega] at hh)
          (by rwa [show attempt + 1 + n - 1 = attempt + (n + 1) - 1 by omega])]
        rw [List.range'_succ attempt n 1]
        simp

/-- C5: `download_file` makes at most `max_retries` attempts (its outcome
depends only on attempts `0 … max_retries - 1`); a success or a
non-retryable exception (e.g. the `ValueError` raised for content-type or
size-cap violations) ends the loop immediately; a retryable exception
(`HTTPStatusError`, `TransportError`, `OSError`) causes a wait of
`backoff ** attempt` seconds and a retry; on exhaustion the last retryable
error is re-raised after the waits `backoff ** 0, …, backoff ** (max_retries - 1)`
(1, 2, 4 seconds with the defaults `backoff_factor = 2`, `max_retries = 3`). -/
theorem download_file_retry_policy (f : Nat → Attempt) (b m : Nat) :
    (∀ g : Nat → Attempt, (∀ i, i < m → f i = g i) →
      download_file f b m = download_file g b m) ∧
    (∀ k p s z, k < m →
      (∀ i, i < k → ∃ e', f i = .exc e' ∧ retryableExc e' = true) →
      f k = .ok p s z →
      download_file f b m = (.ok p s z, (List.range k).map (b ^ ·))) ∧
    (∀ k e, k < m →
      (∀ i, i < k → ∃ e', f i = .exc e' ∧ retryableExc e' = true) →
      f k = .exc e → retryableExc e = false →
      download_file f b m = (.raised e, (List.range k).map (b ^ ·))) ∧
    (∀ e, 0 < m →
      (∀ i, i < m → ∃ e', f i = .exc e' ∧ retryableExc e' = true) →
      f (m - 1) = .exc e →
      download_file f b m = (.raised e, (List.range m).map (b ^ ·))) := by
  refine ⟨?_, ?_, ?_, ?_⟩
  · intro g hg
    exact downloadGo_congr b m 0 none [] f g (fun i _ h2 => hg i (by omega))
  · intro k p s z hk hpre hok
    rw [download_file, downloadGo_first_ok b f k m 0 none [] p s z hk
      (fun i hi => by simpa using hpre i hi) (by simpa using hok)]
    simp [List.range_eq_range']
  · intro k e hk hpre hexc hre
    rw [download_file, downloadGo_fatal b f k m 0 none [] e hk
      (fun i hi => by simpa using hpre i hi) (by simpa using hexc) hre]
    simp [List.range_eq_range']
  · intro e hm hpre hlast
    rw [download_file, downloadGo_exhaust b f m 0 none [] e hm
      (fun i hi => by simpa using hpre i hi) (by simpa using hlast)]
    simp [List.range_eq_range']

/-- An oracle on which every attempt raises `httpx.TransportError("boom")`. -/
def allTransportFail : Nat → Attempt := fun _ => .exc (.transportError "boom")

/-- Witness for `download_file_retry_policy` with the default configuration
`backoff_factor = 2`, `max_retries = 3` and every attempt failing with a
transport error: the last error is re-raised after waits of 1, 2, 4 s. -/
theorem download_file_retry_policy_witness :
    download_file allTransportFail 2 3
      = (.raised (.transportError "boom"), [1, 2, 4]) := by
  have h := (download_file_retry_policy allTransportFail 2 3).2.2.2
    (.transportError "boom") (by omega)
    (fun i _ => ⟨.transportError "boom", rfl, rfl⟩) rfl
  rw [h]
  rfl

/-! ## Text extraction (`TextExtractor.extract`) -/

/-- `MAX_OCR_PAGES` (extractor.py line 14). -/
def MAX_OCR_PAGES : Nat := 50

/-- The running state of `extract`'s page loop: the per-page entries
accumulated in `all_text`, the `ocr_pages` counter, the `method` string. -/
structure ExtractSt where
  all_text : List String
  ocr_pages : Nat
  method : String
  deriving Repr, DecidableEq

/-- The page entry appended to `all_text` (extractor.py line 66):
`"--- Page " + str(page_num + 1) + " ---\n" + text`. -/
def pageEntry (page_num : Nat) (text : String) : String :=
  "--- Page " ++ toString (page_num + 1) ++ " ---\n" ++ text

/-- One iteration of the page loop (extractor.py lines 55-66).  `native` is
the stripped embedded text `page.get_text().strip()`; `ocr page_num` is the
stripped output of `_ocr_page` ("" on OCR failure). -/
def extractStep (min_chars : Nat) (can_ocr : Bool) (ocr : Nat → String)
    (st : ExtractSt) (page_num : Nat) (native : String) : ExtractSt :=
  if native.length < min_chars ∧ can_ocr ∧ st.ocr_pages < MAX_OCR_PAGES then
    if ocr page_num ≠ "" ∧ (ocr page_num).length > native.length then
      { all_text := st.all_text ++ [pageEntry page_num (ocr page_num)],
        ocr_pages := st.ocr_pages + 1,
        method := "pymupdf+ocr" }
    else
      { st with all_text := st.all_text ++ [pageEntry page_num native] }
  else
    { st with all_text := st.all_text ++ [pageEntry page_num native] }

/-- The page loop of `extract`, starting at page number `page_num`. -/
def extractGo (min_chars : Nat) (can_ocr : Bool) (ocr : Nat → String) :
    Nat → List String → ExtractSt → ExtractSt
  | _, [], st => st
  | page_num, native :: rest, st =>
      extractGo min_chars can_ocr ocr (page_num + 1) rest
        (extractStep min_chars can_ocr ocr st page_num native)

/-- `TextExtractor.extract` (extractor.py lines 38-77) as a function of the
pages' stripped native text layers and the OCR oracle.  Returns
`(page_count, char_count, ocr_pages, method)`; `char_count` is the length
of the full text written to `output_path`, i.e. `"\n\n".join(all_text)`. -/
def extract (min_chars : Nat) (can_ocr : Bool) (ocr : Nat → String)
    (pages : List String) : Nat × Nat × Nat × String :=
  let st := extractGo min_chars can_ocr ocr 0 pages ⟨[], 0, "pymupdf"⟩
  (pages.length, (String.intercalate "\n\n" st.all_text).length,
    st.ocr_pages, st.method)

/-- A step never pushes `ocr_pages` past `MAX_OCR_PAGES`, because the OCR
branch is guarded by `ocr_pages < MAX_OCR_PAGES`. -/
lemma extractStep_ocr_le (min_chars : Nat) (can_ocr : Bool) (ocr : Nat → String)
    (st : ExtractSt) (page_num : Nat) (native : String)
    (h : st.ocr_pages ≤ MAX_OCR_PAGES) :
    (extractStep min_chars can_ocr ocr st page_num native).ocr_pages
      ≤ MAX_OCR_PAGES := by
  unfold extractStep
  split
  · next hg =>
      split
      · exact hg.2.2
      · exact h
  · exact h

/-- A step preserves the invariant tying `method` to `ocr_pages = 0`. -/
lemma extractStep_method_inv (min_chars : Nat) (can_ocr : Bool)
    (ocr : Nat → String) (st : ExtractSt) (page_num : Nat) (native : String)
    (h : st.method = (if st.ocr_pages = 0 then "pymupdf" else "pymupdf+ocr")) :
    (extractStep min_chars can_ocr ocr st page_num native).method
      = (if (extractStep min_chars can_ocr ocr st page_num native).ocr_pages = 0
          then "pymupdf" else "pymupdf+ocr") := by
  unfold extractStep
  split
  · split
    · simp
    · exact h
  · exact h

/-- The page loop keeps `ocr_pages ≤ MAX_OCR_PAGES`. -/
lemma extractGo_ocr_le (min_chars : Nat) (can_ocr : Bool) (ocr : Nat → String) :
    ∀ (pages : List String) (page_num : Nat) (st : ExtractSt),
      st.ocr_pages ≤ MAX_OCR_PAGES →
      (extractGo min_chars can_ocr ocr page_num pages st).ocr_pages
        ≤ MAX_OCR_PAGES
  | [], _, _, h => h
  | _ :: rest, page_num, st, h =>
      extractGo_ocr_le min_chars can_ocr ocr rest (page_num + 1) _
        (extractStep_ocr_le min_chars can_ocr ocr st page_num _ h)

/-- C6: per page, OCR is consulted only when the stripped native text is
shorter than `min_chars_per_page`, OCR tools are available, and fewer than
`MAX_OCR_PAGES` (50) pages of this document have been OCRed (outside that
guard the step ignores the OCR oracle entirely); under the guard the OCR
text replaces the native text iff it is strictly longer, and `ocr_pages` is
incremented exactly on adoption; consequently `ocr_pages` never exceeds
50. -/
theorem extract_ocr_adoption (min_chars : Nat) (can_ocr : Bool)
    (ocr ocr' : Nat → String) (st : ExtractSt) (page_num : Nat)
    (native : String) (pages : List String) :
    (¬(native.length < min_chars ∧ can_ocr ∧ st.ocr_pages < MAX_OCR_PAGES) →
      extractStep min_chars can_ocr ocr st page_num native
          = { st with all_text := st.all_text ++ [pageEntry page_num native] } ∧
      extractStep min_chars can_ocr ocr st page_num native
          = extractStep min_chars can_ocr ocr' st page_num native) ∧
    ((native.length < min_chars ∧ can_ocr ∧ st.ocr_pages < MAX_OCR_PAGES) →
      ((ocr page_num).length > native.length →
        extractStep min_chars can_ocr ocr st page_num native
          = { all_text := st.all_text ++ [pageEntry page_num (ocr page_num)],
              ocr_pages := st.ocr_pages + 1,
              method := "pymupdf+ocr" }) ∧
      (¬(ocr page_num).length > native.length →
        extractStep min_chars can_ocr ocr st page_num native
          = { st with all_text := st.all_text ++ [pageEntry page_num native] })) ∧
    (extract min_chars can_ocr ocr pages).2.2.1 ≤ MAX_OCR_PAGES := by
  refine ⟨?_, ?_, ?_⟩
  · intro hg
    constructor
    · unfold extractStep
      rw [if_neg hg]
    · unfold extractStep
      rw [if_neg hg, if_neg hg]
  · intro hg
    constructor
    · intro hlong
      have hne : ocr page_num ≠ "" := by
        intro he
        rw [he] at hlong
        simp at hlong
      unfold extractStep
      rw [if_pos hg, if_pos ⟨hne, hlong⟩]
    · intro hshort
      unfold extractStep
      rw [if_pos hg, if_neg (fun hc => hshort hc.2)]
  · exact extractGo_ocr_le min_chars can_ocr ocr pages 0 _ (by simp)

/-- Witness for `extract_ocr_adoption`: a blank page with OCR available and
OCR returning "REC" (3 characters, strictly longer than the empty native
text) — the OCR text is adopted and `ocr_pages` becomes 1. -/
theorem extract_ocr_adoption_witness :
    extractStep 50 true (fun _ => "REC") ⟨[], 0, "pymupdf"⟩ 0 ""
      = ⟨[pageEntry 0 "REC"], 1, "pymupdf+ocr"⟩ := by
  have h := (extract_ocr_adoption 50 true (fun _ => "REC") (fun _ => "")
    ⟨[], 0, "pymupdf"⟩ 0 "" []).2.1 (by refine ⟨by decide, rfl, by decide⟩)
  exact h.1 (by decide)

/-- The loop maintains `method = "pymupdf"` iff no page was OCRed. -/
lemma extractGo_method_inv (min_chars : Nat) (can_ocr : Bool)
    (ocr : Nat → String) :
    ∀ (pages : List String) (page_num : Nat) (st : ExtractSt),
      st.method = (if st.ocr_pages = 0 then "pymupdf" else "pymupdf+ocr") →
      (extractGo min_chars can_ocr ocr page_num pages st).method
        = (if (extractGo min_chars can_ocr ocr page_num pages st).ocr_pages = 0
            then "pymupdf" else "pymupdf+ocr")
  | [], _, _, h => h
  | native :: rest, page_num, st, h =>
      extractGo_method_inv min_chars can_ocr ocr rest (page_num + 1) _
        (extractStep_method_inv min_chars can_ocr ocr st page_num native h)

/-- C7 (amended): the returned `method` string is `"pymupdf"` when
`ocr_pages = 0` and `"pymupdf+ocr"` when at least one page's OCR text was
adopted.  (The code never produces the spec's `"pdf-native"` strings.) -/
theorem extract_method_string (min_chars : Nat) (can_ocr : Bool)
    (ocr : Nat → String) (pages : List String) :
    (extract min_chars can_ocr ocr pages).2.2.2
      = (if (extract min_chars can_ocr ocr pages).2.2.1 = 0
          then "pymupdf" else "pymupdf+ocr") :=
  extractGo_method_inv min_chars can_ocr ocr pages 0 ⟨[], 0, "pymupdf"⟩ (by simp)

/-- Counterexample to C7 as stated: a single page with enough native text is
extracted with `ocr_pages = 0`, and the returned method string is
`"pymupdf"`, not `"pdf-native"`. -/
theorem extract_method_not_pdf_native :
    (extract 5 false (fun _ => "") ["hello"]).2.2.1 = 0 ∧
    (extract 5 false (fun _ => "") ["hello"]).2.2.2 = "pymupdf" ∧
    (extract 5 false (fun _ => "") ["hello"]).2.2.2 ≠ "pdf-native" := by
  refine ⟨rfl, rfl, ?_⟩
  intro h
  exact absurd h (by decide)

/-- One row of the `text_extractions` table (db.py lines 48-60), as filled
by `Database.insert_extraction`. -/
structure ExtractionRow where
  document_id : Nat
  output_path : String
  method : String
  page_count : Nat
  char_count : Nat
  ocr_pages : Nat
  status : String
  error : Option String
  deriving Repr, DecidableEq

/-- `BaseSource._extract_text` (base.py lines 99-118) when `extract`
returns without raising (the pure model is total): the row inserted by
`insert_extraction(doc_id, output_path, method, page_count, char_count,
ocr_pages, "completed")`. -/
def extract_text_row (doc_id : Nat) (output_path : String)
    (result : Nat × Nat × Nat × String) : ExtractionRow :=
  { document_id := doc_id, output_path := output_path,
    method := result.2.2.2, page_count := result.1,
    char_count := result.2.1, ocr_pages := result.2.2.1,
    status := "completed", error := none }

/-- The page-marker scaffolding written for an `n`-page document whose
pages all contribute empty text. -/
def blankScaffold (n : Nat) : String :=
  String.intercalate "\n\n" ((List.range n).map (fun i => pageEntry i ""))

/-- With OCR unavailable, the loop appends one bare page marker per blank
page and touches nothing else. -/
lemma extractGo_blank (min_chars : Nat) (ocr : Nat → String) :
    ∀ (n page_num : Nat) (st : ExtractSt),
      extractGo min_chars false ocr page_num (List.replicate n "") st
        = ⟨st.all_text ++ (List.range' page_num n).map (fun i => pageEntry i ""),
           st.ocr_pages, st.method⟩
  | 0, page_num, st => by simp [extractGo]
  | n + 1, page_num, st => by
      rw [List.replicate_succ]
      have hstep : extractStep min_chars false ocr st page_num ""
          = { st with all_text := st.all_text ++ [pageEntry page_num ""] } := by
        unfold extractStep
        rw [if_neg (by simp)]
      simp only [extractGo, hstep]
      rw [extractGo_blank min_chars ocr n (page_num + 1) _]
      simp [List.range'_succ]

/-- C8 (amended): extracting an `n`-page PDF whose pages each yield zero
extractable characters, with OCR unavailable, completes — a `completed`
extraction row is inserted — with `ocr_pages = 0`, method `"pymupdf"` (not
the spec's `"pdf-native"`), and `char_count` equal to the length of the
page-marker scaffolding `"--- Page N ---"` (nonzero once the PDF has a
page), not 0. -/
theorem extract_blank_pages (n min_chars doc_id : Nat) (ocr : Nat → String)
    (output_path : String) :
    extract min_chars false ocr (List.replicate n "")
      = (n, (blankScaffold n).length, 0, "pymupdf") ∧
    extract_text_row doc_id output_path
        (extract min_chars false ocr (List.replicate n ""))
      = { document_id := doc_id, output_path := output_path,
          method := "pymupdf", page_count := n,
          char_count := (blankScaffold n).length, ocr_pages := 0,
          status := "completed", error := none } := by
  have hgo := extractGo_blank min_chars ocr n 0 ⟨[], 0, "pymupdf"⟩
  have h : extract min_chars false ocr (List.replicate n "")
      = (n, (blankScaffold n).length, 0, "pymupdf") := by
    unfold extract
    rw [hgo]
    simp [blankScaffold, List.range_eq_range']
  exact ⟨h, by rw [h]; rfl⟩

/-- Counterexample to C8 as stated: one blank page, OCR unavailable — the
extraction completes, but `char_count` is 15 (the length of
`"--- Page 1 ---\n"`), not 0, and the method string is `"pymupdf"`, not
`"pdf-native"`. -/
theorem extract_blank_page_nonzero_chars :
    extract 50 false (fun _ => "") [""] = (1, 15, 0, "pymupdf") ∧
    (extract 50 false (fun _ => "") [""]).2.1 ≠ 0 ∧
    (extract 50 false (fun _ => "") [""]).2.2.2 ≠ "pdf-native" := by
  refine ⟨rfl, by decide, by decide⟩

/-! ## Shared catalog lemmas -/

/-- `update_download` maps the update over the rows (the SQL UPDATE's
per-row effect). -/
lemma update_download_rows (db : Db) (doc_id : Nat) (status : String)
    (lp sh : Option String) (fsz : Option Nat) (err : Option String)
    (now : Nat) :
    (update_download db doc_id status lp sh fsz err now).rows
      = db.rows.map (fun r =>
          if r.id = doc_id then
            { r with
              download_status := status, local_path := lp, sha256 := sh,
              file_size := fsz, error := err, updated_at := now }
          else r) := rfl

/-- When `url_exists` is false the underlying `find?` is `none`. -/
lemma find?_url_eq_none (db : Db) (url : String)
    (h : url_exists db url = false) :
    db.rows.find? (fun r => r.url == url) = none := by
  unfold url_exists at h
  rcases hf : db.rows.find? (fun r => r.url == url) with _ | r
  · exact hf
  · rw [hf] at h
    simp at h

/-- When `url_exists` is false, no row carries the url. -/
lemma url_exists_false (db : Db) (url : String)
    (h : url_exists db url = false) :
    ∀ r ∈ db.rows, r.url ≠ url := by
  intro r hr he
  have hz := List.find?_eq_none.mp (find?_url_eq_none db url h) r hr
  simp [he] at hz

/-- The second component of `insert_document` is the database, extended by
the pending row exactly when the url was absent. -/
lemma insert_document_snd (db : Db)
    (url source source_id filename title metadata : String) (now : Nat) :
    (insert_document db url source source_id filename title metadata now).2
      = if url_exists db url then db
        else
          { rows := db.rows ++
              [pendingRow db.nextId url source source_id filename title metadata now],
            nextId := db.nextId + 1, lastInsertRowid := db.nextId } := by
  by_cases hu : url_exists db url = true
  · simp only [insert_document, hu, if_true]
    split
    · rfl
    · split <;> rfl
  · simp only [insert_document, hu, if_false, Bool.not_eq_true] at *
    simp only [insert_document, hu, Bool.false_eq_true, if_false]
    split
    · rfl
    · split <;> rfl

/-- On a fresh url, `insert_document` really inserts and returns the fresh
rowid `db.nextId` (through `cur.lastrowid` when it is nonzero, through the
fallback SELECT when `db.nextId = 0`). -/
lemma insert_document_not_present (db : Db)
    (url source source_id filename title metadata : String) (now : Nat)
    (h : url_exists db url = false) :
    insert_document db url source source_id filename title metadata now
      = (db.nextId,
         { rows := db.rows ++
             [pendingRow db.nextId url source source_id filename title metadata now],
           nextId := db.nextId + 1, lastInsertRowid := db.nextId }) := by
  simp only [insert_document, h, Bool.false_eq_true, if_false]
  by_cases h0 : db.nextId = 0
  · rw [if_neg (by simpa using h0)]
    rw [List.find?_append, find?_url_eq_none db url h]
    simp [pendingRow, h0]
  · rw [if_pos h0]

/-! ## Catalog mutations issued by the adapters (C1) -/

/-- Every write to the `documents` table issued anywhere in the repository:
the default loop's insert (base.py line 56), content-dedup skip (line 77),
successful download (line 81) and failure (line 90) — the torrents adapter
issues the same three shapes plus the directory fallback
`update_download(doc_id, "downloaded", dest_dir)` (torrents.py line 127) —
and the epsteingraph adapter's registration of a scraped person profile
(epsteingraph.py lines 379-398). -/
inductive CatalogMutation where
  | insertDoc (url source source_id filename title metadata : String)
  | dedupSkip (doc_id : Nat) (existing : String)
  | markDownloaded (doc_id : Nat) (local_path sha256 : String) (file_size : Nat)
  | markFailed (doc_id : Nat) (error : String)
  | torrentDirDownloaded (doc_id : Nat) (dest_dir : String)
  | egRegister (slug title metadata profile_path : String)

/-- Apply one catalog mutation, mirroring the corresponding source lines. -/
def applyMutation (db : Db) (now : Nat) : CatalogMutation → Db
  | .insertDoc url source source_id filename title metadata =>
      (insert_document db url source source_id filename title metadata now).2
  | .dedupSkip doc_id existing =>
      update_download db doc_id "skipped" none none none
        (some ("duplicate of " ++ existing)) now
  | .markDownloaded doc_id lp sh sz =>
      update_download db doc_id "downloaded" (some lp) (some sh) (some sz)
        none now
  | .markFailed doc_id e =>
      update_download db doc_id "failed" none none none (some e) now
  | .torrentDirDownloaded doc_id dest_dir =>
      update_download db doc_id "downloaded" (some dest_dir) none none none now
  | .egRegister slug title metadata profile_path =>
      let api_url := "https://api.epsteingraph.com/api/people/" ++ slug
      if url_exists db api_url then db
      else
        let res := insert_document db api_url "epsteingraph" slug
          (slug ++ ".json") title metadata now
        update_download res.2 res.1 "downloaded" (some profile_path) none
          (some 0) none now

/-- Mutations of the default adapter run loop (base.py `run`). -/
def defaultLoopMutation : CatalogMutation → Prop
  | .insertDoc _ _ _ _ _ _ => True
  | .dedupSkip _ _ => True
  | .markDownloaded _ _ _ _ => True
  | .markFailed _ _ => True
  | .torrentDirDownloaded _ _ => False
  | .egRegister _ _ _ _ => False

/-- Every `downloaded` row has a non-null `local_path`. -/
def DownloadedLpOk (db : Db) : Prop :=
  ∀ r ∈ db.rows, r.download_status = "downloaded" → r.local_path ≠ none

/-- Every `downloaded` row has non-null `local_path`, `sha256` and
`file_size`. -/
def DownloadedAllOk (db : Db) : Prop :=
  ∀ r ∈ db.rows, r.download_status = "downloaded" →
    r.local_path ≠ none ∧ r.sha256 ≠ none ∧ r.file_size ≠ none

/-- `update_download` preserves `DownloadedLpOk` whenever a `downloaded`
status comes with a non-null path. -/
lemma DownloadedLpOk_update (db : Db) (doc_id : Nat) (status : String)
    (lp sh : Option String) (fsz : Option Nat) (err : Option String)
    (now : Nat) (hdb : DownloadedLpOk db)
    (hcase : status = "downloaded" → lp ≠ none) :
    DownloadedLpOk (update_download db doc_id status lp sh fsz err now) := by
  intro r' hr'
  rw [update_download_rows] at hr'
  obtain ⟨r, hr, rfl⟩ := List.mem_map.mp hr'
  by_cases hid : r.id = doc_id
  · rw [if_pos hid]
    intro hst
    exact hcase hst
  · rw [if_neg hid]
    exact hdb r hr

/-- `update_download` preserves `DownloadedAllOk` whenever a `downloaded`
status comes with all three fields non-null. -/
lemma DownloadedAllOk_update (db : Db) (doc_id : Nat) (status : String)
    (lp sh : Option String) (fsz : Option Nat) (err : Option String)
    (now : Nat) (hdb : DownloadedAllOk db)
    (hcase : status = "downloaded" → lp ≠ none ∧ sh ≠ none ∧ fsz ≠ none) :
    DownloadedAllOk (update_download db doc_id status lp sh fsz err now) := by
  intro r' hr'
  rw [update_download_rows] at hr'
  obtain ⟨r, hr, rfl⟩ := List.mem_map.mp hr'
  by_cases hid : r.id = doc_id
  · rw [if_pos hid]
    intro hst
    exact hcase hst
  · rw [if_neg hid]
    exact hdb r hr

/-- Membership in the rows of `insert_document`'s result. -/
lemma mem_insert_document (db : Db)
    (url source source_id filename title metadata : String) (now : Nat)
    (r : DocRow)
    (hr : r ∈ (insert_document db url source source_id filename title
      metadata now).2.rows) :
    r ∈ db.rows ∨
      r = pendingRow db.nextId url source source_id filename title metadata now := by
  rw [insert_document_snd] at hr
  by_cases hu : url_exists db url
  · rw [if_pos hu] at hr
    exact Or.inl hr
  · rw [if_neg hu] at hr
    simpa using List.mem_append.mp hr

/-- C1 (amended): after every catalog mutation issued anywhere in the
repository — the default loop's, the torrents adapter's, and the
epsteingraph registration — a `downloaded` row has a non-null `local_path`;
after the default adapter loop's mutations, `downloaded` rows additionally
keep non-null `sha256` and `file_size`.  (The full three-field invariant
claimed does not survive the epsteingraph registration, which stores
`sha256 = NULL` and `file_size = 0`, nor the torrents directory fallback,
which stores `sha256 = file_size = NULL`.) -/
theorem downloaded_nonnull_invariant (db : Db) (now : Nat)
    (m : CatalogMutation) :
    (DownloadedLpOk db → DownloadedLpOk (applyMutation db now m)) ∧
    (defaultLoopMutation m → DownloadedAllOk db →
      DownloadedAllOk (applyMutation db now m)) := by
  constructor
  · intro hdb
    cases m with
    | insertDoc url source source_id filename title metadata =>
        intro r hr hst
        rcases mem_insert_document db url source source_id filename title
          metadata now r hr with h | rfl
        · exact hdb r h hst
        · exact absurd hst (by simp [pendingRow])
    | dedupSkip doc_id existing =>
        exact DownloadedLpOk_update db doc_id _ _ _ _ _ now hdb
          (fun h => absurd h (by simp))
    | markDownloaded doc_id lp sh sz =>
        exact DownloadedLpOk_update db doc_id _ _ _ _ _ now hdb
          (fun _ => by simp)
    | markFailed doc_id e =>
        exact DownloadedLpOk_update db doc_id _ _ _ _ _ now hdb
          (fun h => absurd h (by simp))
    | torrentDirDownloaded doc_id dest_dir =>
        exact DownloadedLpOk_update db doc_id _ _ _ _ _ now hdb
          (fun _ => by simp)
    | egRegister slug title metadata profile_path =>
        show DownloadedLpOk _
        simp only [applyMutation]
        split
        · exact hdb
        · refine DownloadedLpOk_update _ _ "downloaded" (some profile_path)
            none (some 0) none now ?_ (fun _ => by simp)
          intro r hr hst
          rcases mem_insert_document db _ "epsteingraph" slug (slug ++ ".json")
            title metadata now r hr with h | rfl
          · exact hdb r h hst
          · exact absurd hst (by simp [pendingRow])
  · intro hm hdb
    cases m with
    | insertDoc url source source_id filename title metadata =>
        intro r hr hst
        rcases mem_insert_document db url source source_id filename title
          metadata now r hr with h | rfl
        · exact hdb r h hst
        · exact absurd hst (by simp [pendingRow])
    | dedupSkip doc_id existing =>
        exact DownloadedAllOk_update db doc_id _ _ _ _ _ now hdb
          (fun h => absurd h (by simp))
    | markDownloaded doc_id lp sh sz =>
        exact DownloadedAllOk_update db doc_id _ _ _ _ _ now hdb
          (fun _ => by simp)
    | markFailed doc_id e =>
        exact DownloadedAllOk_update db doc_id _ _ _ _ _ now hdb
          (fun h => absurd h (by simp))
    | torrentDirDownloaded doc_id dest_dir => exact absurd hm (by simp [defaultLoopMutation])
    | egRegister slug title metadata profile_path => exact absurd hm (by simp [defaultLoopMutation])

/-- Counterexample to C1 as stated: on a fresh catalog, the epsteingraph
adapter's registration (epsteingraph.py lines 379-398) produces a row with
`download_status = 'downloaded'` whose `sha256` is NULL. -/
theorem egRegister_downloaded_null_sha256 :
    ((applyMutation Db.empty 7
        (.egRegister "jeffrey-epstein" "Jeffrey Epstein" ""
          "data/epsteingraph/people/jeffrey-epstein/profile.json")).rows.map
      (fun r => (r.download_status, r.sha256, r.file_size, r.local_path)))
      = [("downloaded", none, some 0,
          some "data/epsteingraph/people/jeffrey-epstein/profile.json")] := rfl

/-- Witness for `downloaded_nonnull_invariant` at the one-row catalog
`sampleDb`: the epsteingraph registration keeps `local_path` non-null, and
a default-loop failure mark keeps the strong invariant. -/
theorem downloaded_nonnull_invariant_witness :
    DownloadedLpOk (applyMutation sampleDb 9
      (.egRegister "x" "t" "" "data/epsteingraph/people/x/profile.json")) ∧
    DownloadedAllOk (applyMutation sampleDb 9 (.markFailed 1 "boom")) := by
  constructor
  · exact (downloaded_nonnull_invariant sampleDb 9 _).1
      (by unfold DownloadedLpOk sampleDb sampleRow; decide)
  · exact (downloaded_nonnull_invariant sampleDb 9 _).2 trivial
      (by unfold DownloadedAllOk sampleDb sampleRow; decide)

/-! ## Filesystem and streaming download (C2, C3) -/

/-- The on-disk state: newest binding first, path ↦ file bytes. -/
abbrev Fs := List (String × List Nat)

/-- Observe a file's bytes. -/
def fsRead (fs : Fs) (path : String) : Option (List Nat) :=
  (fs.find? (fun p => p.1 == path)).map (·.2)

/-- `open(path, "wb")` plus the writes so far: `path` maps to `content`. -/
def fsWrite (fs : Fs) (path : String) (content : List Nat) : Fs :=
  (path, content) :: fs.filter (fun p => !(p.1 == path))

/-- `os.remove(path)`. -/
def fsRemove (fs : Fs) (path : String) : Fs :=
  fs.filter (fun p => !(p.1 == path))

/-- Is `pat` an initial segment of `l`? -/
def isHeadOf : List Char → List Char → Bool
  | [], _ => true
  | _ :: _, [] => false
  | a :: as, b :: bs => a == b && isHeadOf as bs

/-- Does `l` contain `pat` as a contiguous run? -/
def containsRun (pat : List Char) : List Char → Bool
  | [] => isHeadOf pat []
  | c :: cs => isHeadOf pat (c :: cs) || containsRun pat cs

/-- Python's `pat in s` substring test. -/
def strContains (s pat : String) : Bool := containsRun pat.data s.data

/-- Python's `s.endswith(suf)`. -/
def strEndsWith (s suf : String) : Bool :=
  isHeadOf suf.data.reverse s.data.reverse

/-- One HTTP response as `_stream_download` observes it: whether
`raise_for_status` passes, the `content-type` header, the optional parsed
`content-length` header, and the streamed chunks (byte lists). -/
structure Resp where
  statusOk : Bool
  contentType : String
  contentLength : Option Nat
  chunks : List (List Nat)

/-- Stand-in for `hashlib.sha256(bytes).hexdigest()`: an injective digest
of the streamed bytes; no claim interprets the digest itself. -/
def sha256Hex (content : List Nat) : String := toString content

/-- The chunk-writing loop of `_stream_download` (downloader.py lines
88-94): write each chunk to the open file, add its length to the byte
counter, and raise `ValueError` as soon as the counter exceeds
`max_file_size`.  The bytes written so far stay in the file when the error
propagates out of the `with open(...)` block. -/
def streamWriteLoop (maxSize : Nat) (path : String) :
    List (List Nat) → List Nat → Nat → Fs →
      Except PyExc (List Nat × Nat) × Fs
  | [], content, size, fs => (.ok (content, size), fs)
  | c :: cs, content, size, fs =>
      let content' := content ++ c
      let size' := size + c.length
      let fs' := fsWrite fs path content'
      if size' > maxSize then
        (.error (.valueError ("File exceeded max size during download: "
            ++ toString size' ++ " bytes")), fs')
      else streamWriteLoop maxSize path cs content' size' fs'

/-- `Downloader._stream_download` (downloader.py lines 70-96): status
check, HTML-instead-of-binary check, declared-length check, then the
streaming write loop; on success returns
`(local_path, sha256_hexdigest, size)`. -/
def streamDownload (maxSize : Nat) (resp : Resp) (local_path : String)
    (fs : Fs) : Except PyExc (String × String × Nat) × Fs :=
  if !resp.statusOk then
    (.error (.httpStatusError "raise_for_status"), fs)
  else if strContains resp.contentType "text/html" &&
      (strEndsWith (String.toLower local_path) ".pdf" ||
       strEndsWith (String.toLower local_path) ".zip") then
    (.error (.valueError ("Expected binary but got HTML (content-type: "
        ++ resp.contentType ++ ")")), fs)
  else if (match resp.contentLength with
      | some l => decide (l > maxSize)
      | none => false) then
    (.error (.valueError ("File too large: "
        ++ toString (resp.contentLength.getD 0) ++ " bytes")), fs)
  else
    match streamWriteLoop maxSize local_path resp.chunks [] 0
        (fsWrite fs local_path []) with
    | (.ok (content, size), fs') =>
        (.ok (local_path, sha256Hex content, size), fs')
    | (.error e, fs') => (.error e, fs')

/-- `Downloader.download_file`'s retry loop threaded through the
filesystem: per-attempt responses come from `resps`; only
`HTTPStatusError`, `TransportError` and `OSError` are retried
(downloader.py lines 57-68). -/
def download_file_fs (resps : Nat → Resp) (maxSize : Nat)
    (local_path : String) : Nat → Nat → Option PyExc → Fs → DlOutcome × Fs
  | _, 0, lastError, fs =>
      (match lastError with
       | some e => .raised e
       | none => .raisedNone, fs)
  | attempt, fuel + 1, _lastError, fs =>
      match streamDownload maxSize (resps attempt) local_path fs with
      | (.ok r, fs') => (.ok r.1 r.2.1 r.2.2, fs')
      | (.error e, fs') =>
          if retryableExc e then
            download_file_fs resps maxSize local_path (attempt + 1) fuel
              (some e) fs'
          else (.raised e, fs')

/-- One iteration of the default adapter run loop (base.py lines 44-92):
url dedup, insert, download, sha-256 content dedup — deleting the
just-written file and recording `skipped` on a duplicate — and the final
status update.  `download` is the downloader's combined effect on the
filesystem (text extraction touches only `text_extractions`, not modelled
here). -/
def processDoc (db : Db) (fs : Fs)
    (source url source_id filename title metadata : String) (now : Nat)
    (download : Fs → DlOutcome × Fs) : Db × Fs :=
  if url_exists db url then (db, fs)
  else
    let res := insert_document db url source source_id filename title
      metadata now
    let doc_id := res.1
    let db1 := res.2
    match download fs with
    | (.ok p s z, fs1) =>
        match sha256_exists db1 s with
        | some existing =>
            if existing ≠ "" then
              (update_download db1 doc_id "skipped" none none none
                (some ("duplicate of " ++ existing)) now, fsRemove fs1 p)
            else
              (update_download db1 doc_id "downloaded" (some p) (some s)
                (some z) none now, fs1)
        | none =>
            (update_download db1 doc_id "downloaded" (some p) (some s)
              (some z) none now, fs1)
    | (.raised e, fs1) =>
        (update_download db1 doc_id "failed" none none none
          (some e.msg) now, fs1)
    | (.raisedNone, fs1) =>
        (update_download db1 doc_id "failed" none none none
          (some "exceptions must derive from BaseException") now, fs1)

/-- The bytes sitting in the destination file at the moment the size cap
aborts the write loop. -/
def writtenOnAbort (maxSize : Nat) :
    List (List Nat) → List Nat → Nat → List Nat
  | [], content, _ => content
  | c :: cs, content, size =>
      let content' := content ++ c
      let size' := size + c.length
      if size' > maxSize then content'
      else writtenOnAbort maxSize cs content' size'

/-- Re-writing a path overrides the previous write. -/
lemma fsWrite_fsWrite (fs : Fs) (path : String) (c1 c2 : List Nat) :
    fsWrite (fsWrite fs path c1) path c2 = fsWrite fs path c2 := by
  simp [fsWrite, List.filter_filter]

/-- Reading a just-written path returns its bytes. -/
lemma fsRead_fsWrite (fs : Fs) (path : String) (c : List Nat) :
    fsRead (fsWrite fs path c) path = some c := by
  simp [fsRead, fsWrite]

/-- Reading a just-removed path returns nothing. -/
lemma fsRead_fsRemove (fs : Fs) (path : String) :
    fsRead (fsRemove fs path) path = none := by
  have hn : (fsRemove fs path).find? (fun p => p.1 == path) = none := by
    rw [List.find?_eq_none]
    intro x hx
    have hmem := (List.mem_filter.mp hx).2
    simp only [Bool.not_eq_true'] at hmem
    simp [hmem]
  simp [fsRead, hn]

/-- When the chunks' total size exceeds the cap, the write loop raises the
size `ValueError` and leaves the bytes written so far in the file. -/
lemma streamWriteLoop_oversize (maxSize : Nat) (path : String) :
    ∀ (chunks : List (List Nat)) (content : List Nat) (size : Nat) (fs : Fs),
      size = content.length →
      size ≤ maxSize →
      size + (chunks.map List.length).sum > maxSize →
      streamWriteLoop maxSize path chunks content size fs
        = (.error (.valueError ("File exceeded max size during download: "
            ++ toString (writtenOnAbort maxSize chunks content size).length
            ++ " bytes")),
           fsWrite fs path (writtenOnAbort maxSize chunks content size)) ∧
      (writtenOnAbort maxSize chunks content size).length > maxSize := by
  intro chunks
  induction chunks with
  | nil =>
      intro content size fs hlen hle hsum
      simp at hsum
      omega
  | cons c cs ih =>
      intro content size fs hlen hle hsum
      have hlen' : size + c.length = (content ++ c).length := by
        simp [hlen]
      by_cases hover : size + c.length > maxSize
      · constructor
        · simp only [streamWriteLoop, writtenOnAbort]
          rw [if_pos hover, if_pos hover, hlen']
        · simp only [writtenOnAbort]
          rw [if_pos hover]
          omega
      · have hle' : size + c.length ≤ maxSize := by omega
        have hsum' : size + c.length + (cs.map List.length).sum > maxSize := by
          simp only [List.map_cons, List.sum_cons] at hsum
          omega
        have hrec := ih (content ++ c) (size + c.length)
          (fsWrite fs path (content ++ c)) hlen' hle' hsum'
        constructor
        · simp only [streamWriteLoop, writtenOnAbort]
          rw [if_neg hover, if_neg hover, hrec.1, fsWrite_fsWrite]
        · simp only [writtenOnAbort]
          rw [if_neg hover]
          exact hrec.2

/-- `_stream_download` on an over-long body: the header checks pass, the
write loop aborts with the size `ValueError`, and the partial file stays on
disk. -/
lemma streamDownload_oversize (maxSize : Nat) (resp : Resp) (path : String)
    (fs : Fs)
    (hok : resp.statusOk = true)
    (hct : (strContains resp.contentType "text/html" &&
      (strEndsWith (String.toLower path) ".pdf" ||
       strEndsWith (String.toLower path) ".zip")) = false)
    (hcl : (match resp.contentLength with
      | some l => decide (l > maxSize)
      | none => false) = false)
    (hsum : (resp.chunks.map List.length).sum > maxSize) :
    streamDownload maxSize resp path fs
      = (.error (.valueError ("File exceeded max size during download: "
          ++ toString (writtenOnAbort maxSize resp.chunks [] 0).length
          ++ " bytes")),
         fsWrite fs path (writtenOnAbort maxSize resp.chunks [] 0)) ∧
    (writtenOnAbort maxSize resp.chunks [] 0).length > maxSize := by
  have hw := streamWriteLoop_oversize maxSize path resp.chunks [] 0
    (fsWrite fs path []) rfl (by omega) (by simpa using hsum)
  constructor
  · unfold streamDownload
    rw [hok, hct, hcl]
    simp only [Bool.not_true, Bool.false_eq_true, if_false]
    rw [hw.1, fsWrite_fsWrite]
  · exact hw.2

/-- C3 (amended): a download whose byte counter exceeds `max_file_size`
mid-stream fails — the `ValueError` is not retried, and the document's row
is marked `failed`, never `downloaded` — but the partially-written file
(larger than the cap) remains on disk at the destination path; the code
never removes it. -/
theorem oversize_download_fails_file_remains (db : Db) (fs : Fs)
    (source url source_id filename title metadata path : String)
    (now maxSize maxRetries : Nat) (resps : Nat → Resp)
    (hurl : url_exists db url = false)
    (hfuel : 0 < maxRetries)
    (hok : (resps 0).statusOk = true)
    (hct : (strContains (resps 0).contentType "text/html" &&
      (strEndsWith (String.toLower path) ".pdf" ||
       strEndsWith (String.toLower path) ".zip")) = false)
    (hcl : (match (resps 0).contentLength with
      | some l => decide (l > maxSize)
      | none => false) = false)
    (hsum : ((resps 0).chunks.map List.length).sum > maxSize) :
    (∀ r ∈ (processDoc db fs source url source_id filename title metadata now
        (download_file_fs resps maxSize path 0 maxRetries none)).1.rows,
      r.url = url →
        r.download_status = "failed" ∧ r.download_status ≠ "downloaded") ∧
    fsRead (processDoc db fs source url source_id filename title metadata now
        (download_file_fs resps maxSize path 0 maxRetries none)).2 path
      = some (writtenOnAbort maxSize (resps 0).chunks [] 0) ∧
    (writtenOnAbort maxSize (resps 0).chunks [] 0).length > maxSize := by
  obtain ⟨m, rfl⟩ : ∃ m, maxRetries = m + 1 := ⟨maxRetries - 1, by omega⟩
  have hsd := streamDownload_oversize maxSize (resps 0) path fs hok hct hcl hsum
  have hdl : download_file_fs resps maxSize path 0 (m + 1) none fs
      = (.raised (.valueError ("File exceeded max size during download: "
          ++ toString (writtenOnAbort maxSize (resps 0).chunks [] 0).length
          ++ " bytes")),
         fsWrite fs path (writtenOnAbort maxSize (resps 0).chunks [] 0)) := by
    simp only [download_file_fs]
    rw [hsd.1]
    simp [retryableExc]
  have hins := insert_document_not_present db url source source_id filename
    title metadata now hurl
  simp only [processDoc, hurl, Bool.false_eq_true, if_false]
  rw [hdl, hins]
  refine ⟨?_, fsRead_fsWrite fs path _, hsd.2⟩
  intro r' hr' hru
  rw [update_download_rows] at hr'
  obtain ⟨r, hr, rfl⟩ := List.mem_map.mp hr'
  by_cases hid : r.id = db.nextId
  · rw [if_pos hid] at hru ⊢
    exact ⟨rfl, by simp⟩
  · rw [if_neg hid] at hru ⊢
    rcases List.mem_append.mp hr with hold | hnew
    · exact absurd hru (url_exists_false db url hurl r hold)
    · have : r = pendingRow db.nextId url source source_id filename title
          metadata now := by simpa using hnew
      rw [this] at hid
      exact absurd rfl hid

/-- A response whose two 3-byte chunks exceed a 5-byte cap. -/
def oversizeResp : Resp := ⟨true, "application/pdf", none, [[1, 2, 3], [9, 9, 9]]⟩

/-- The downloader effect for `oversizeResp` with `max_file_size = 5` and
the default 3 retries. -/
def oversizeDownload : Fs → DlOutcome × Fs :=
  download_file_fs (fun _ => oversizeResp) 5 "data/direct_urls/f.pdf" 0 3 none

/-- Counterexample to C3 as stated: after the over-size download aborts,
the document's row is `failed` (no `downloaded` row), but the partial file
— all six streamed bytes — is still on disk. -/
theorem oversize_download_leaves_partial_file :
    ((processDoc Db.empty [] "direct_urls" "u" "" "f.pdf" "t" "" 7
        oversizeDownload).1.rows.map (fun r => (r.url, r.download_status)))
      = [("u", "failed")] ∧
    fsRead (processDoc Db.empty [] "direct_urls" "u" "" "f.pdf" "t" "" 7
        oversizeDownload).2 "data/direct_urls/f.pdf"
      = some [1, 2, 3, 9, 9, 9] := ⟨rfl, rfl⟩

/-- Witness for `oversize_download_fails_file_remains` at the concrete
over-size response: the partial file holds the six streamed bytes, more
than the 5-byte cap. -/
theorem oversize_download_fails_file_remains_witness :
    fsRead (processDoc Db.empty [] "direct_urls" "u2" "" "f.pdf" "t" "" 7
        oversizeDownload).2 "data/direct_urls/f.pdf"
      = some (writtenOnAbort 5 oversizeResp.chunks [] 0) ∧
    (writtenOnAbort 5 oversizeResp.chunks [] 0).length > 5 := by
  have h := oversize_download_fails_file_remains Db.empty [] "direct_urls"
    "u2" "" "f.pdf" "t" "" "data/direct_urls/f.pdf" 7 5 3
    (fun _ => oversizeResp) rfl (by omega) rfl (by decide) (by decide)
    (by decide)
  exact ⟨h.2.1, h.2.2⟩

/-! ## Content-hash dedup invariant (C2) -/

/-- Number of `downloaded` rows carrying hash `s`. -/
def shaCount (db : Db) (s : String) : Nat :=
  db.rows.countP (fun r =>
    r.download_status == "downloaded" && r.sha256 == some s)

/-- No two `downloaded` rows share a (non-null) `sha256`. -/
def ShaDistinct (db : Db) : Prop := ∀ s, shaCount db s ≤ 1

/-- Well-formedness of the catalog: row ids are pairwise distinct and
below the next AUTOINCREMENT value. -/
def WfDb (db : Db) : Prop :=
  (∀ r ∈ db.rows, r.id < db.nextId) ∧ (db.rows.map (·.id)).Nodup

/-- Every `downloaded` row with a non-null hash records a non-empty
`local_path` — what the caller of `sha256_exists` relies on through Python
truthiness of the returned path. -/
def ShaLpOk (db : Db) : Prop :=
  ∀ r ∈ db.rows, r.download_status = "downloaded" →
    ∀ s, r.sha256 = some s → ∃ p, r.local_path = some p ∧ p ≠ ""

/-- Counting a disjunction is bounded by the sum of the counts. -/
lemma countP_or_le {α : Type} (p q : α → Bool) (l : List α) :
    l.countP (fun a => p a || q a) ≤ l.countP p + l.countP q := by
  induction l with
  | nil => simp
  | cons a t ih =>
      simp only [List.countP_cons]
      by_cases hp : p a <;> by_cases hq : q a <;> simp [hp, hq] <;> omega

/-- With distinct ids, at most one row matches a given id. -/
lemma countP_id_le_one (db : Db) (hwf : WfDb db) (doc_id : Nat) :
    db.rows.countP (fun r => r.id == doc_id) ≤ 1 := by
  have h1 := List.nodup_iff_count_le_one.mp hwf.2 doc_id
  have h2 : (db.rows.map (·.id)).count doc_id
      = db.rows.countP (fun r => r.id == doc_id) := by
    simp [List.count, List.countP_map]
    rfl
  omega

/-- `update_download` does not change the id column. -/
lemma update_download_ids (db : Db) (doc_id : Nat) (status : String)
    (lp sh : Option String) (fsz : Option Nat) (err : Option String)
    (now : Nat) :
    (update_download db doc_id status lp sh fsz err now).rows.map (·.id)
      = db.rows.map (·.id) := by
  rw [update_download_rows, List.map_map]
  refine List.map_congr_left ?_
  intro r _
  by_cases hid : r.id = doc_id <;> simp [hid]

/-- `update_download` preserves well-formedness. -/
lemma WfDb_update (db : Db) (doc_id : Nat) (status : String)
    (lp sh : Option String) (fsz : Option Nat) (err : Option String)
    (now : Nat) (hwf : WfDb db) :
    WfDb (update_download db doc_id status lp sh fsz err now) := by
  constructor
  · intro r' hr'
    rw [update_download_rows] at hr'
    obtain ⟨r, hr, rfl⟩ := List.mem_map.mp hr'
    have hlt := hwf.1 r hr
    by_cases hid : r.id = doc_id
    · rw [if_pos hid]
      exact hlt
    · rw [if_neg hid]
      exact hlt
  · rw [update_download_ids]
    exact hwf.2

/-- `update_download` preserves `ShaLpOk` whenever a `downloaded` status
comes with the needed fields. -/
lemma ShaLpOk_update (db : Db) (doc_id : Nat) (status : String)
    (lp sh : Option String) (fsz : Option Nat) (err : Option String)
    (now : Nat) (hlp : ShaLpOk db)
    (hcase : status = "downloaded" →
      ∀ s, sh = some s → ∃ p, lp = some p ∧ p ≠ "") :
    ShaLpOk (update_download db doc_id status lp sh fsz err now) := by
  intro r' hr'
  rw [update_download_rows] at hr'
  obtain ⟨r, hr, rfl⟩ := List.mem_map.mp hr'
  by_cases hid : r.id = doc_id
  · rw [if_pos hid]
    intro hst s hs
    exact hcase hst s hs
  · rw [if_neg hid]
    exact hlp r hr

/-- Marking a row with a non-`downloaded` status never increases any sha
count. -/
lemma shaCount_update_not_downloaded (db : Db) (doc_id : Nat)
    (status : String) (lp sh : Option String) (fsz : Option Nat)
    (err : Option String) (now : Nat) (s : String)
    (hst : (status == "downloaded") = false) :
    shaCount (update_download db doc_id status lp sh fsz err now) s
      ≤ shaCount db s := by
  rw [shaCount, shaCount, update_download_rows, List.countP_map]
  refine List.countP_mono_left ?_
  intro r _ hpred
  by_cases hid : r.id = doc_id
  · exfalso
    simp only [Function.comp] at hpred
    rw [if_pos hid] at hpred
    simp [hst] at hpred
  · simp only [Function.comp] at hpred
    rwa [if_neg hid] at hpred

/-- When the truthy dedup check came back negative, no `downloaded` row
carries the hash at all (given `ShaLpOk`). -/
lemma shaCount_eq_zero_of_not_truthy (db : Db) (s : String) (hlp : ShaLpOk db)
    (hfalsy : sha256_exists db s = none ∨ sha256_exists db s = some "") :
    shaCount db s = 0 := by
  rw [shaCount, List.countP_eq_zero]
  intro r hr hpred
  simp only [Bool.and_eq_true, beq_iff_eq] at hpred
  obtain ⟨p0, hp0, hp0ne⟩ := hlp r hr hpred.1 s hpred.2
  have hsome : (db.rows.find? (fun r =>
      r.sha256 == some s && r.download_status == "downloaded")).isSome := by
    refine List.find?_isSome.mpr ⟨r, hr, ?_⟩
    simp [hpred.1, hpred.2]
  obtain ⟨r0, hr0⟩ := Option.isSome_iff_exists.mp hsome
  have hr0p := List.find?_some hr0
  have hr0mem := List.mem_of_find?_eq_some hr0
  simp only [Bool.and_eq_true, beq_iff_eq] at hr0p
  obtain ⟨q0, hq0, hq0ne⟩ := hlp r0 hr0mem hr0p.2 s hr0p.1
  have hex : sha256_exists db s = some q0 := by
    unfold sha256_exists
    rw [hr0]
    exact hq0
  rcases hfalsy with hf | hf
  · rw [hex] at hf
    exact Option.noConfusion hf
  · rw [hex] at hf
    exact hq0ne (Option.some.injEq _ _ ▸ hf)

/-- `insert_document` preserves well-formedness: the fresh row gets the
fresh id `db.nextId`. -/
lemma WfDb_insert_document (db : Db)
    (url source source_id filename title metadata : String) (now : Nat)
    (hwf : WfDb db) :
    WfDb (insert_document db url source source_id filename title metadata
      now).2 := by
  rw [insert_document_snd]
  split
  · exact hwf
  · constructor
    · intro r hr
      show r.id < db.nextId + 1
      rcases List.mem_append.mp hr with hold | hnew
      · have := hwf.1 r hold
        omega
      · have hr2 : r = pendingRow db.nextId url source source_id filename
            title metadata now := by simpa using hnew
        rw [hr2]
        show db.nextId < db.nextId + 1
        omega
    · show ((db.rows ++ [pendingRow db.nextId url source source_id filename
        title metadata now]).map (·.id)).Nodup
      rw [List.map_append, List.nodup_append]
      refine ⟨hwf.2, by simp, ?_⟩
      intro a ha hb
      obtain ⟨r, hrmem, hra⟩ := List.mem_map.mp ha
      have hbn : a = db.nextId := by simpa [pendingRow] using hb
      have := hwf.1 r hrmem
      omega

/-- `insert_document` adds only a `pending` row, so sha counts do not
move. -/
lemma shaCount_insert_document (db : Db)
    (url source source_id filename title metadata : String) (now : Nat)
    (s : String) :
    shaCount (insert_document db url source source_id filename title
      metadata now).2 s = shaCount db s := by
  rw [insert_document_snd]
  split
  · rfl
  · show (db.rows ++ [pendingRow db.nextId url source source_id filename
      title metadata now]).countP _ = _
    rw [List.countP_append]
    simp [pendingRow, shaCount]

/-- `insert_document` preserves `ShaLpOk` (the new row is `pending`). -/
lemma ShaLpOk_insert_document (db : Db)
    (url source source_id filename title metadata : String) (now : Nat)
    (hlp : ShaLpOk db) :
    ShaLpOk (insert_document db url source source_id filename title metadata
      now).2 := by
  rw [insert_document_snd]
  split
  · exact hlp
  · intro r hr hst
    rcases List.mem_append.mp hr with hold | hnew
    · exact hlp r hold hst
    · have hr2 : r = pendingRow db.nextId url source source_id filename
          title metadata now := by simpa using hnew
      rw [hr2] at hst
      exact absurd hst (by simp [pendingRow])

/-- Marking one row `downloaded` with a hash nobody else holds keeps every
sha count at most one. -/
lemma shaCount_update_downloaded_le (db : Db) (doc_id : Nat) (p s0 : String)
    (z : Nat) (now : Nat) (s : String) (hwf : WfDb db)
    (hzero : shaCount db s0 = 0) (hdist : ShaDistinct db) :
    shaCount (update_download db doc_id "downloaded" (some p) (some s0)
      (some z) none now) s ≤ 1 := by
  by_cases hs : s = s0
  · subst hs
    rw [shaCount, update_download_rows, List.countP_map]
    have hmono : ∀ r ∈ db.rows,
        ((fun r : DocRow =>
            r.download_status == "downloaded" && r.sha256 == some s) ∘
          (fun r : DocRow =>
            if r.id = doc_id then
              { r with
                download_status := "downloaded", local_path := some p,
                sha256 := some s, file_size := some z, error := none,
                updated_at := now }
            else r)) r = true →
        ((fun r : DocRow =>
          (r.download_status == "downloaded" && r.sha256 == some s) ||
            r.id == doc_id) r) = true := by
      intro r _ hpred
      simp only [Function.comp] at hpred
      by_cases hid : r.id = doc_id
      · simp [hid]
      · rw [if_neg hid] at hpred
        simp [hpred]
    refine le_trans (List.countP_mono_left hmono) ?_
    refine le_trans (countP_or_le _ _ _) ?_
    have h1 : db.rows.countP (fun r =>
        r.download_status == "downloaded" && r.sha256 == some s) = 0 := hzero
    have h2 := countP_id_le_one db hwf doc_id
    omega
  · rw [shaCount, update_download_rows, List.countP_map]
    have hmono : ∀ r ∈ db.rows,
        ((fun r : DocRow =>
            r.download_status == "downloaded" && r.sha256 == some s) ∘
          (fun r : DocRow =>
            if r.id = doc_id then
              { r with
                download_status := "downloaded", local_path := some p,
                sha256 := some s0, file_size := some z, error := none,
                updated_at := now }
            else r)) r = true →
        ((fun r : DocRow =>
          r.download_status == "downloaded" && r.sha256 == some s) r) = true := by
      intro r _ hpred
      simp only [Function.comp] at hpred
      by_cases hid : r.id = doc_id
      · exfalso
        rw [if_pos hid] at hpred
        simp only [Bool.and_eq_true, beq_iff_eq] at hpred
        exact hs (Option.some.inj hpred.2).symm
      · rwa [if_neg hid] at hpred
    exact le_trans (List.countP_mono_left hmono) (hdist s)

/-- One iteration of the default run loop preserves well-formedness, the
pairwise-distinct-sha invariant, and the path-truthiness invariant, as long
as the downloader never reports an empty destination path. -/
lemma processDoc_invariants (db : Db) (fs : Fs)
    (source url source_id filename title metadata : String) (now : Nat)
    (download : Fs → DlOutcome × Fs)
    (hwf : WfDb db) (hdist : ShaDistinct db) (hlp : ShaLpOk db)
    (hpath : ∀ p s z fs', download fs = (.ok p s z, fs') → p ≠ "") :
    WfDb (processDoc db fs source url source_id filename title metadata now
        download).1 ∧
    ShaDistinct (processDoc db fs source url source_id filename title
        metadata now download).1 ∧
    ShaLpOk (processDoc db fs source url source_id filename title metadata
        now download).1 := by
  by_cases hurl : url_exists db url = true
  · simp only [processDoc, hurl, if_true]
    exact ⟨hwf, hdist, hlp⟩
  · have hurl' : url_exists db url = false := by simpa using hurl
    simp only [processDoc, hurl', Bool.false_eq_true, if_false]
    have hwfI := WfDb_insert_document db url source source_id filename title
      metadata now hwf
    have hlpI := ShaLpOk_insert_document db url source source_id filename
      title metadata now hlp
    have hdistI : ShaDistinct (insert_document db url source source_id
        filename title metadata now).2 := by
      intro s
      rw [shaCount_insert_document]
      exact hdist s
    rcases hdl : download fs with ⟨out, fs1⟩
    cases out with
    | ok p s z =>
        have hpne : p ≠ "" := hpath p s z fs1 hdl
        simp only [hdl]
        rcases hsha : sha256_exists (insert_document db url source source_id
            filename title metadata now).2 s with _ | ex
        · simp only [hsha]
          refine ⟨WfDb_update _ _ _ _ _ _ _ _ hwfI, ?_, ?_⟩
          · intro s'
            exact shaCount_update_downloaded_le _ _ p s z now s' hwfI
              (shaCount_eq_zero_of_not_truthy _ s hlpI (Or.inl hsha)) hdistI
          · refine ShaLpOk_update _ _ _ _ _ _ _ _ hlpI ?_
            intro _ s' hs'
            exact ⟨p, rfl, hpne⟩
        · simp only [hsha]
          by_cases hex : ex ≠ ""
          · rw [if_pos hex]
            refine ⟨WfDb_update _ _ _ _ _ _ _ _ hwfI, ?_, ?_⟩
            · intro s'
              exact le_trans
                (shaCount_update_not_downloaded _ _ _ _ _ _ _ _ s' (by decide))
                (hdistI s')
            · exact ShaLpOk_update _ _ _ _ _ _ _ _ hlpI
                (fun hst => absurd hst (by decide))
          · rw [if_neg hex]
            have hex' : ex = "" := not_ne_iff.mp hex
            subst hex'
            refine ⟨WfDb_update _ _ _ _ _ _ _ _ hwfI, ?_, ?_⟩
            · intro s'
              exact shaCount_update_downloaded_le _ _ p s z now s' hwfI
                (shaCount_eq_zero_of_not_truthy _ s hlpI (Or.inr hsha)) hdistI
            · refine ShaLpOk_update _ _ _ _ _ _ _ _ hlpI ?_
              intro _ s' hs'
              exact ⟨p, rfl, hpne⟩
    | raised e =>
        simp only [hdl]
        refine ⟨WfDb_update _ _ _ _ _ _ _ _ hwfI, ?_, ?_⟩
        · intro s'
          exact le_trans
            (shaCount_update_not_downloaded _ _ _ _ _ _ _ _ s' (by decide))
            (hdistI s')
        · exact ShaLpOk_update _ _ _ _ _ _ _ _ hlpI
            (fun hst => absurd hst (by decide))
    | raisedNone =>
        simp only [hdl]
        refine ⟨WfDb_update _ _ _ _ _ _ _ _ hwfI, ?_, ?_⟩
        · intro s'
          exact le_trans
            (shaCount_update_not_downloaded _ _ _ _ _ _ _ _ s' (by decide))
            (hdistI s')
        · exact ShaLpOk_update _ _ _ _ _ _ _ _ hlpI
            (fun hst => absurd hst (by decide))

/-- One discovered item of a run: the `(url, metadata)`-derived fields and
the downloader's combined effect for that document. -/
structure RunItem where
  url : String
  source_id : String
  filename : String
  title : String
  metadata : String
  download : Fs → DlOutcome × Fs

/-- The default adapter run loop (base.py lines 44-92): process the
discovered items in order. -/
def runLoop (source : String) (now : Nat) :
    List RunItem → Db × Fs → Db × Fs
  | [], st => st
  | it :: rest, (db, fs) =>
      runLoop source now rest
        (processDoc db fs source it.url it.source_id it.filename it.title
          it.metadata now it.download)

/-- C2: over any run of the default adapter loop, no two `downloaded` rows
ever share a (non-null) `sha256`; and whenever the streamed file's hash
matches an earlier `downloaded` row, the just-written file is deleted and
the document's row is set to `skipped` with error
`"duplicate of <existing path>"` — it never becomes `downloaded`. -/
theorem run_loop_content_dedup (source : String) (now : Nat) :
    (∀ (items : List RunItem) (db : Db) (fs : Fs),
      WfDb db → ShaDistinct db → ShaLpOk db →
      (∀ it ∈ items, ∀ (fs0 : Fs) (p s : String) (z : Nat) (fs1 : Fs),
        it.download fs0 = (.ok p s z, fs1) → p ≠ "") →
      ShaDistinct (runLoop source now items (db, fs)).1) ∧
    (∀ (db : Db) (fs fs1 : Fs)
       (url source_id filename title metadata p s ex : String) (z : Nat)
       (download : Fs → DlOutcome × Fs),
      url_exists db url = false →
      download fs = (.ok p s z, fs1) →
      sha256_exists (insert_document db url source source_id filename title
        metadata now).2 s = some ex →
      ex ≠ "" →
      (∀ r ∈ (processDoc db fs source url source_id filename title metadata
          now download).1.rows,
        r.url = url →
          r.download_status = "skipped" ∧
          r.error = some ("duplicate of " ++ ex) ∧
          r.download_status ≠ "downloaded") ∧
      fsRead (processDoc db fs source url source_id filename title metadata
        now download).2 p = none) := by
  constructor
  · intro items
    induction items with
    | nil =>
        intro db fs _ hdist _ _
        exact hdist
    | cons it rest ih =>
        intro db fs hwf hdist hlp hpaths
        obtain ⟨hw', hd', hl'⟩ := processDoc_invariants db fs source it.url
          it.source_id it.filename it.title it.metadata now it.download
          hwf hdist hlp (hpaths it (List.mem_cons_self it rest) fs)
        exact ih _ _ hw' hd' hl'
          (fun it' h' => hpaths it' (List.mem_cons_of_mem it h'))
  · intro db fs fs1 url source_id filename title metadata p s ex z download
      hurl hdl hsha hex
    have hins := insert_document_not_present db url source source_id
      filename title metadata now hurl
    simp only [processDoc, hurl, Bool.false_eq_true, if_false, hdl, hsha]
    rw [if_pos hex]
    constructor
    · intro r' hr' hru
      rw [update_download_rows] at hr'
      obtain ⟨r, hr, rfl⟩ := List.mem_map.mp hr'
      rw [hins] at hr
      by_cases hid : r.id = (insert_document db url source source_id
          filename title metadata now).1
      · rw [if_pos hid] at hru ⊢
        exact ⟨rfl, rfl, by simp⟩
      · rw [if_neg hid] at hru ⊢
        rcases List.mem_append.mp hr with hold | hnew
        · exact absurd hru (url_exists_false db url hurl r hold)
        · have hr2 : r = pendingRow db.nextId url source source_id filename
              title metadata now := by simpa using hnew
          rw [hins] at hid
          rw [hr2] at hid
          exact absurd rfl hid
    · exact fsRead_fsRemove fs1 p

/-- A catalog already holding one `downloaded` PDF with hash "h". -/
def dupDb : Db :=
  ⟨[{ id := 1, url := "u1", source := "direct_urls", source_id := "",
      filename := "a.pdf", title := "a", metadata := "",
      local_path := some "data/direct_urls/a.pdf", sha256 := some "h",
      file_size := some 3, download_status := "downloaded", error := none,
      created_at := 0, updated_at := 0 }], 2, 1⟩

/-- A downloader effect streaming a byte-identical file (same hash "h") to
a second path. -/
def dupDownload : Fs → DlOutcome × Fs :=
  fun fs => (.ok "data/direct_urls/b.pdf" "h" 3,
    ("data/direct_urls/b.pdf", [1, 2, 3]) :: fs)

/-- Witness for `run_loop_content_dedup` at a concrete duplicate download:
the just-written second file is gone afterwards, and the run result still
has at most one `downloaded` row with hash "h". -/
theorem run_loop_content_dedup_witness :
    fsRead (processDoc dupDb [] "direct_urls" "u2" "" "b.pdf" "b" "" 9
      dupDownload).2 "data/direct_urls/b.pdf" = none ∧
    shaCount (runLoop "direct_urls" 9
      [⟨"u2", "", "b.pdf", "b", "", dupDownload⟩] (dupDb, [])).1 "h" ≤ 1 := by
  have hlp : ShaLpOk dupDb := by
    intro r hr hst s hs
    have hr1 : r = dupDb.rows.head (by simp [dupDb]) := by
      simpa [dupDb] using hr
    rw [hr1]
    exact ⟨"data/direct_urls/a.pdf", rfl, by decide⟩
  have hdist : ShaDistinct dupDb := by
    intro s
    rw [shaCount]
    simp only [dupDb, List.countP_cons, List.countP_nil]
    split <;> omega
  have hwf : WfDb dupDb := by
    constructor
    · intro r hr
      have hr1 : r = dupDb.rows.head (by simp [dupDb]) := by
        simpa [dupDb] using hr
      rw [hr1]
      decide
    · decide
  have hpaths : ∀ it ∈ [(⟨"u2", "", "b.pdf", "b", "", dupDownload⟩ : RunItem)],
      ∀ (fs0 : Fs) (p s : String) (z : Nat) (fs1 : Fs),
        it.download fs0 = (.ok p s z, fs1) → p ≠ "" := by
    intro it hit fs0 p s z fs1 hd
    simp only [List.mem_singleton] at hit
    subst hit
    simp only [dupDownload, Prod.mk.injEq, DlOutcome.ok.injEq] at hd
    obtain ⟨⟨hp, -, -⟩, -⟩ := hd
    rw [← hp]
    decide
  have h2 := (run_loop_content_dedup "direct_urls" 9).2 dupDb [] _ "u2" ""
    "b.pdf" "b" "" "data/direct_urls/b.pdf" "h" "data/direct_urls/a.pdf" 3
    dupDownload rfl rfl rfl (by decide)
  have h1 := (run_loop_content_dedup "direct_urls" 9).1
    [⟨"u2", "", "b.pdf", "b", "", dupDownload⟩] dupDb [] hwf hdist hlp hpaths
  exact ⟨h2.2, h1 "h"⟩

end EpsteinData
